import Mathlib

/-!
Verification development for the katex-rs core: a shallow embedding of the
units converter (`units.rs`), the em formatter (`make_em`), the token types
(`types/tokens.rs`), the lexer (`lexer/mod.rs`) and the `mclass` builders
(`functions/mclass.rs`), together with theorems settling the frozen claims.

Modelling conventions:
* Rust `f64` arithmetic is embedded as exact rational arithmetic (`ℚ`).
* Rust `&str` values are embedded as `String` / `List Char`; byte offsets are
  recovered from character lists through `utf8Len` (the sum of
  `Char.utf8Size`), since the Rust code only ever stores offsets that lie on
  character boundaries.
* Fallible Rust functions returning `Result` are embedded with `Except`.
* Types of this repository that are not part of the provided sources
  (`Options`, `Style`, font metrics, `Settings`) are modelled from the spec;
  each such definition carries a doc comment starting with
  `Modelled from the spec:`.
-/

namespace KatexRs

/-- Error kinds used by the embedded fragment of `ParseErrorKind`
(`types` module; only the variants the claims touch are represented). -/
inductive ParseErrorKind where
  | InvalidUnit (unit : String)
  | UnexpectedCharacter (character : String)
  | StrictModeError (message : String) (code : String)
  | VerbMissingDelimiter
  deriving DecidableEq, Repr

/-- Embedding of `ParseError`: an error kind plus the optional source span of
the offending token (`ParseError::with_token` attaches a token's span). -/
structure ParseError where
  kind : ParseErrorKind
  span : Option (Nat × Nat) := none
  deriving DecidableEq, Repr

/-! ### Units (`units.rs`) -/

/-- Modelled from the spec: the per-size font metrics record (`FontMetrics`
lives outside the provided sources; the spec lists x-height, quad and the
points-per-em / mu scaling used by `calculate_size`). -/
structure FontMetrics where
  pt_per_em : ℚ
  x_height : ℚ
  quad : ℚ
  css_em_per_mu : ℚ
  deriving DecidableEq, Repr

/-- Modelled from the spec: math styles are display/text/script/scriptscript,
each with a cramped ("tight") variant (the `Style` type is outside the
provided sources). -/
inductive StyleFamily where
  | display
  | text
  | script
  | scriptscript
  deriving DecidableEq, Repr

/-- Modelled from the spec: a math style is a family together with the
cramped ("tight") flag. -/
structure Style where
  family : StyleFamily
  cramped : Bool
  deriving DecidableEq, Repr

/-- Modelled from the spec: `Style::is_tight` holds for the "tight"
(cramped) variants. -/
def Style.is_tight (s : Style) : Bool := s.cramped

/-- Modelled from the spec: `Style::text` is the text-style counterpart of a
style (`ex`/`em` units resolve against the text-style metrics). -/
def Style.text (s : Style) : Style := ⟨StyleFamily.text, s.cramped⟩

/-- Modelled from the spec: the immutable rendering context `Options`, with
the fields `calculate_size` reads (style, size, size multiplier, max size). -/
structure Options where
  style : Style
  size : Nat
  size_multiplier : ℚ
  max_size : ℚ
  deriving DecidableEq, Repr

/-- Embedding of the `KatexContext` environment used by `calculate_size`:
`get_global_metrics` returns the global metrics for a size, and
`having_style` is `Options::having_style` (modelled from the spec: it derives
a new `Options` for the given style, leaving unrelated fields shared; its
exact size table lives outside the provided sources, so it is carried as an
environment function). -/
structure KatexContext where
  get_global_metrics : Nat → FontMetrics
  having_style : Options → Style → Options

/-- Embedding of a `Measurement`: a number with a unit string. -/
structure Measurement where
  number : ℚ
  unit : String
  deriving DecidableEq, Repr

/-- Embedding of the `PT_PER_UNIT` table: TeX points per absolute unit. -/
def PT_PER_UNIT (unit : String) : Option ℚ :=
  if unit = "pt" then some 1
  else if unit = "mm" then some (7227 / 2540)
  else if unit = "cm" then some (7227 / 254)
  else if unit = "in" then some (7227 / 100)
  else if unit = "bp" then some (803 / 800)
  else if unit = "px" then some (803 / 800)
  else if unit = "pc" then some 12
  else if unit = "dd" then some (1238 / 1157)
  else if unit = "cc" then some (14856 / 1157)
  else if unit = "nd" then some (685 / 642)
  else if unit = "nc" then some (1370 / 107)
  else if unit = "sp" then some (1 / 65536)
  else none

/-- Embedding of the `RELATIVE_UNITS` set. -/
def RELATIVE_UNITS : List String := ["ex", "em", "mu"]

/-- Embedding of `valid_unit_str`. -/
def valid_unit_str (unit : String) : Bool :=
  (PT_PER_UNIT unit).isSome || RELATIVE_UNITS.contains unit

/-- Embedding of `valid_unit`. -/
def valid_unit (measurement : Measurement) : Bool :=
  valid_unit_str measurement.unit

/-- The options used for `ex`/`em` units inside `calculate_size`: the source's
local `unit_options` (text-style options when the current style is tight,
otherwise a clone of the current options). -/
def unit_options (ctx : KatexContext) (options : Options) : Options :=
  if options.style.is_tight then ctx.having_style options options.style.text
  else options

/-- Embedding of `KatexContext::calculate_size`: convert a measurement into
CSS ems for the given options. -/
def calculate_size (ctx : KatexContext) (size : Measurement) (options : Options) :
    Except ParseError ℚ :=
  match PT_PER_UNIT size.unit with
  | some pt =>
      -- Absolute units. Convert unit -> pt -> em, then unscale to current size.
      let metrics := ctx.get_global_metrics options.size
      let scale := pt / metrics.pt_per_em / options.size_multiplier
      Except.ok (min (size.number * scale) options.max_size)
  | none =>
      if size.unit = "mu" then
        let metrics := ctx.get_global_metrics options.size
        let scale := metrics.css_em_per_mu
        Except.ok (min (size.number * scale) options.max_size)
      else
        -- Other relative units refer to the textstyle font in the current size.
        let uo := unit_options ctx options
        let metrics := ctx.get_global_metrics uo.size
        let base : Except ParseError ℚ :=
          if size.unit = "ex" then Except.ok metrics.x_height
          else if size.unit = "em" then Except.ok metrics.quad
          else Except.error ⟨ParseErrorKind.InvalidUnit size.unit, none⟩
        match base with
        | Except.error e => Except.error e
        | Except.ok s0 =>
            -- Compensate for the size multiplier if the options changed.
            let scale :=
              if uo.size ≠ options.size then
                s0 * (uo.size_multiplier / options.size_multiplier)
              else s0
            Except.ok (min (size.number * scale) options.max_size)

/-- Modelled from the spec: the default text-size global metrics (10 points
per em, x-height 0.431 em, quad 1 em, 18 mu per quad), used to build concrete
contexts for witnesses. -/
def defaultTextMetrics : FontMetrics :=
  ⟨10, 431 / 1000, 1, 1 / 18⟩

/-- Modelled from the spec: a concrete context whose metrics are the default
text metrics at every size and whose `having_style` only replaces the style
(satisfying the spec's idempotence property for same-style derivations). -/
def defaultCtx : KatexContext :=
  ⟨fun _ => defaultTextMetrics, fun o s => { o with style := s }⟩

/-- Modelled from the spec: default options in (uncramped) text style at the
base size with multiplier 1, maximum size 1000000. -/
def defaultOptions : Options :=
  ⟨⟨StyleFamily.text, false⟩, 6, 1, 1000000⟩

/-! ### Em formatting (`make_em`, `finalize_em` in `units.rs`) -/

/-- Drop all trailing zero characters: the first while-pop loop of
`finalize_em`. -/
def trimTrailingZeros (s : List Char) : List Char :=
  (s.reverse.dropWhile (fun c => c = '0')).reverse

/-- Character-list core of `finalize_em`: when the value contains a decimal
point, trim trailing zeros and a then-trailing point; normalize "-0" and the
empty string to "0"; append "em". -/
def finalize_em_chars (value : List Char) : List Char :=
  let v1 :=
    if '.' ∈ value then
      let t := trimTrailingZeros value
      if t.getLast? = some '.' then t.dropLast else t
    else value
  let v2 := if v1 = ['-', '0'] then ['0'] else if v1 = [] then ['0'] else v1
  v2 ++ ['e', 'm']

/-- Embedding of `finalize_em`. -/
def finalize_em (value : String) : String :=
  String.mk (finalize_em_chars value.toList)

/-- Rounding of an exact rational to the nearest integer with halves away
from zero: the embedding of `f64::round` on the rational embedding of f64
values. -/
def roundHalfAway (q : ℚ) : ℤ :=
  if q < 0 then -⌊-q + 1 / 2⌋ else ⌊q + 1 / 2⌋

/-- Decimal digits of `f`, right-aligned and zero-padded to width `d`: the
digit-buffer loop of `make_em` writes exactly these characters. -/
def pad : Nat → Nat → List Char
  | 0, _ => []
  | d + 1, f => pad d (f / 10) ++ [Nat.digitChar (f % 10)]

/-- Decimal representation of a natural number, the embedding of the
standard integer formatter used for the integral part of `make_em`. -/
def natRepr (n : Nat) : List Char :=
  if _h : n < 10 then [Nat.digitChar n]
  else natRepr (n / 10) ++ [Nat.digitChar (n % 10)]
termination_by n
decreasing_by exact Nat.div_lt_self (by omega) (by omega)

/-- The trailing-zero loop of `make_em` over the fractional part: starting
from `d` remaining digits, divide out tens while the last digit is zero,
returning the reduced fractional value together with the digit count. -/
def stripZeros : Nat → Nat → Nat × Nat
  | f, 0 => (f, 0)
  | f, d + 1 => if f % 10 = 0 then stripZeros (f / 10) d else (f, d + 1)

/-- Embedding of the standard fixed-point formatter with four decimal places
(`{n:.4}` in the source) on the exact rational value: optional sign, the
integral digits, a decimal point and exactly four fractional digits of the
value rounded at the fourth decimal place. -/
def fixedFormat4 (q : ℚ) : List Char :=
  let m := roundHalfAway (q * 10000)
  (if m < 0 then ['-'] else []) ++
    natRepr (m.natAbs / 10000) ++ '.' :: pad 4 (m.natAbs % 10000)

/-- Character-list core of `make_em`. A rational embedded from a finite f64
is always finite, so the source's leading `!n.is_finite()` branch cannot
fire and is omitted; the two fall-back branches return the fixed formatter's
output finalized by `finalize_em`, exactly as the source does. `i64::MAX` is
embedded exactly as `2^63 - 1`. -/
def make_em_chars (n : ℚ) : List Char :=
  if |n| ≥ ((2 : ℚ) ^ 63 - 1) / 10000 then finalize_em_chars (fixedFormat4 n)
  else
    let scaled_float := n * 10000
    let scaled_abs := |scaled_float|
    let frac := scaled_abs - (⌊scaled_abs⌋ : ℚ)
    if |frac - 1 / 2| ≤ 1 / 2 ^ 52 * max scaled_abs 1 then
      finalize_em_chars (fixedFormat4 n)
    else
      let scaled_int := roundHalfAway scaled_float
      if scaled_int = 0 then ['0', 'e', 'm']
      else
        let sign := if scaled_int < 0 then ['-'] else []
        let a := scaled_int.natAbs
        let int_part := a / 10000
        let frac_part := a % 10000
        let fracChars :=
          if frac_part ≠ 0 then
            '.' :: pad (stripZeros frac_part 4).2 (stripZeros frac_part 4).1
          else []
        sign ++ natRepr int_part ++ fracChars ++ ['e', 'm']

/-- Embedding of `make_em`. -/
def make_em (n : ℚ) : String :=
  String.mk (make_em_chars n)

/-- The reference formatter (the source's own `reference_make_em` test
helper): fixed four-decimal formatting followed by `finalize_em`. The claim
describes exactly this composition. -/
def reference_make_em (n : ℚ) : String :=
  String.mk (finalize_em_chars (fixedFormat4 n))

/-! ### Tokens (`types/tokens.rs`)

Rust strings are embedded as `List Char` / `String`; the `Arc<str>` input
buffer is embedded by its character list, and `Arc::ptr_eq` by content
equality (pointer-equal `Arc`s hold the very same string, so this sound
over-approximation never changes an equality result; the fast path it
guards falls back to a content comparison anyway). Slice ranges are kept as
character indices; the Rust code stores the corresponding byte offsets,
which always lie on character boundaries. -/

/-- Embedding of `Arc::ptr_eq` on input buffers (see the section comment). -/
def arcPtrEq (a b : List Char) : Bool := a == b

/-- Embedding of `Arc::ptr_eq` on owned strings. -/
def arcPtrEqStr (a b : String) : Bool := a == b

/-- Embedding of `TokenText`: a borrowed slice of an input buffer, an owned
string, or a static literal. -/
inductive TokenText where
  | Slice (source : List Char) (start stop : Nat)
  | Owned (text : String)
  | Static (text : String)
  deriving DecidableEq, Repr

/-- Embedding of `TokenText::as_str`. -/
def TokenText.as_str : TokenText → String
  | TokenText.Slice source start stop => String.mk ((source.drop start).take (stop - start))
  | TokenText.Owned text => text
  | TokenText.Static text => text

/-- Embedding of `TokenText::len` (the byte length of the text). -/
def utf8Len (l : List Char) : Nat := (l.map Char.utf8Size).sum

/-- Embedding of `TokenText::len`: byte length of `as_str`. -/
def TokenText.byteLen (t : TokenText) : Nat := utf8Len t.as_str.toList

/-- Embedding of `impl PartialEq for TokenText`: pointer/range fast paths,
then content comparison. -/
def TokenText.eq : TokenText → TokenText → Bool
  | TokenText.Slice s1 a1 b1, TokenText.Slice s2 a2 b2 =>
      if arcPtrEq s1 s2 ∧ a1 = a2 ∧ b1 = b2 then true
      else (TokenText.Slice s1 a1 b1).as_str == (TokenText.Slice s2 a2 b2).as_str
  | TokenText.Owned t1, TokenText.Owned t2 => arcPtrEqStr t1 t2 || t1 == t2
  | TokenText.Static t1, TokenText.Static t2 => t1 == t2
  | a, b => a.as_str == b.as_str

/-- Embedding of `SourceLocation`: the shared input buffer and a span
(character indices; Rust stores the byte offsets). -/
structure SourceLocation where
  input : List Char
  start : Nat
  stop : Nat
  deriving DecidableEq, Repr

/-- Modelled from the spec: `SourceLocation::range` (declared outside the
provided sources) combines two optional spans into the span from the first
one's start to the second one's end, provided both exist and share the same
input buffer. -/
def SourceLocation.range : Option SourceLocation → Option SourceLocation → Option SourceLocation
  | some a, some b => if a.input = b.input then some ⟨a.input, a.start, b.stop⟩ else none
  | _, _ => none

/-- Embedding of `Token`. -/
structure Token where
  text : TokenText
  loc : Option SourceLocation
  noexpand : Option Bool
  treat_as_relax : Option Bool
  deriving DecidableEq, Repr

/-- Embedding of `Token::new`. -/
def Token.new (text : TokenText) (loc : Option SourceLocation) : Token :=
  ⟨text, loc, none, none⟩

/-- Embedding of `Token::set_text` (`&mut self`): state-passing form of the
in-place update of the receiver's `text` field. -/
def Token.set_text (t : Token) (text : TokenText) : Token :=
  { t with text := text }

/-- Embedding of `Token::range`: a new token spanning from this token to the
end token, with the given text and cleared flags. -/
def Token.range (t : Token) (end_token : Token) (text : TokenText) : Option Token :=
  (SourceLocation.range t.loc end_token.loc).map fun loc =>
    ⟨text, some loc, none, none⟩

/-! ### Lexer (`lexer/mod.rs`)

The lexer's byte-level matchers only ever match ASCII bytes or whole UTF-8
characters, so they are embedded at character level; positions are character
indices, and the Rust byte offset of a position is `utf8Len` of the prefix
(the Rust code keeps offsets on character boundaries throughout). -/

/-- Embedding of `is_ascii_space` (the matched bytes are ASCII, so a
character-level test is equivalent: a multi-byte character's bytes are all
at least 0x80). -/
def is_ascii_space (c : Char) : Bool := c = ' ' ∨ c = '\t' ∨ c = '\r' ∨ c = '\n'

/-- Embedding of `is_hspace`. -/
def is_hspace (c : Char) : Bool := c = ' ' ∨ c = '\r' ∨ c = '\t'

/-- Embedding of `is_ascii_alpha_or_at`. -/
def is_ascii_alpha_or_at (c : Char) : Bool :=
  (65 ≤ c.toNat ∧ c.toNat ≤ 90) ∨ (97 ≤ c.toNat ∧ c.toNat ≤ 122) ∨ c = '@'

/-- Embedding of `char::is_ascii_alphabetic`. -/
def is_ascii_alphabetic (c : Char) : Bool :=
  (65 ≤ c.toNat ∧ c.toNat ≤ 90) ∨ (97 ≤ c.toNat ∧ c.toNat ≤ 122)

/-- Embedding of `is_combining_mark` (U+0300 to U+036F). -/
def is_combining_mark (c : Char) : Bool := 0x300 ≤ c.toNat ∧ c.toNat ≤ 0x36F

/-- Embedding of `AdvanceWhile::advance_while`: the number of leading
characters satisfying the predicate. -/
def countWhile (p : Char → Bool) : List Char → Nat
  | [] => 0
  | c :: cs => if p c then countWhile p cs + 1 else 0

/-- Embedding of `match_space`. -/
def match_space (s : List Char) : Option Nat :=
  let len := countWhile is_ascii_space s
  if 0 < len then some len else none

/-- Embedding of `match_control_space_after_bs`. -/
def match_control_space_after_bs (rest : List Char) : Option Nat :=
  match rest with
  | [] => none
  | b1 :: it =>
      if b1 = '\n' then some (1 + countWhile is_hspace it)
      else if is_hspace b1 then
        let h := countWhile is_hspace it
        let it2 := it.drop h
        match it2 with
        | '\n' :: it3 => some (1 + h + 1 + countWhile is_hspace it3)
        | _ => some (1 + h + countWhile is_hspace it2)
      else none

/-- Embedding of `match_normal_char_with_accents` (the count of matched
characters: the allow-listed first character plus the run of combining
marks; the source records the byte length of the same characters). -/
def match_normal_char_with_accents (s : List Char) : Option Nat :=
  match s with
  | [] => none
  | first :: chars =>
      let u := first.toNat
      if (0x21 ≤ u ∧ u ≤ 0x5B) ∨ (0x5D ≤ u ∧ u ≤ 0x2027) ∨
          (0x202A ≤ u ∧ u ≤ 0xD7FF) ∨ 0xF900 ≤ u then
        some (1 + (chars.takeWhile is_combining_mark).length)
      else none

/-- Embedding of `match_control_symbol_after_bs`: one character (a Lean
`Char` is a Unicode scalar value and can never be a surrogate, so the
surrogate rejection of the source is vacuous here). -/
def match_control_symbol_after_bs (rest : List Char) : Option Nat :=
  match rest with
  | [] => none
  | _ :: _ => some 1

/-- Scanning loop of `match_verb_after_bs`: the count of characters consumed
through the closing delimiter, failing on a newline or carriage return. -/
def verbScan (delim : Char) : List Char → Option Nat
  | [] => none
  | c :: cs =>
      if c = '\n' ∨ c = '\r' then none
      else if c = delim then some 1
      else (verbScan delim cs).map (1 + ·)

/-- Embedding of `match_verb_after_bs`: the count of matched characters
(`verb`, optional star, and the delimited body through the closing
delimiter) together with the star flag. `strip_prefix('*')` is embedded as
a head test plus `tail`. -/
def match_verb_after_bs (rest : List Char) : Option (Nat × Bool) :=
  match rest with
  | 'v' :: 'e' :: 'r' :: 'b' :: rest1 =>
      let star : Bool := rest1.head? = some '*'
      let rest2 := if star then rest1.tail else rest1
      let prefix_len : Nat := if star then 5 else 4
      match rest2 with
      | [] => none
      | delim :: body =>
          if !star ∧ is_ascii_alphabetic delim then none
          else (verbScan delim body).map fun l => (prefix_len + 1 + l, star)
  | _ => none

/-- Embedding of `BranchKind`. -/
inductive BranchKind where
  | Unknown
  | Space
  | ControlSpace
  | NormalWithAccents
  | VerbStar
  | Verb
  | ControlWordWhitespace
  | ControlSymbol
  deriving DecidableEq, Repr

/-- Embedding of `TokenMatch`: the branch, the count of matched characters
(the source stores the byte length of the same characters) and the count of
trailing whitespace characters excluded from a control word's text. -/
structure TokenMatch where
  branch : BranchKind
  chars : Nat
  skip : Nat
  deriving DecidableEq, Repr

/-- Embedding of `match_control_word_with_space_after_bs`. -/
def match_control_word_with_space_after_bs (rest : List Char) : Option (Nat × Nat) :=
  let n := countWhile is_ascii_alpha_or_at rest
  if n = 0 then none
  else some (n, countWhile is_ascii_space (rest.drop n))

/-- Embedding of `exec`: classify the next token at the head of `slice`
(the source's early returns become an option-match chain in the source's
priority order; the source is never called on an empty slice). -/
def exec (slice : List Char) : TokenMatch :=
  match slice with
  | [] => ⟨BranchKind.Unknown, 0, 0⟩
  | b :: rest =>
      match (if is_ascii_space b then match_space slice else none) with
      | some l => ⟨BranchKind.Space, l, 0⟩
      | none =>
      match (if b = '\\' then match_control_space_after_bs rest else none) with
      | some l => ⟨BranchKind.ControlSpace, 1 + l, 0⟩
      | none =>
      match (if b = '\\' then match_verb_after_bs rest else none) with
      | some (l, star) =>
          ⟨if star then BranchKind.VerbStar else BranchKind.Verb, 1 + l, 0⟩
      | none =>
      match (if b = '\\' then match_control_word_with_space_after_bs rest else none) with
      | some (l, s) => ⟨BranchKind.ControlWordWhitespace, 1 + l + s, s⟩
      | none =>
      match (if b = '\\' then match_control_symbol_after_bs rest else none) with
      | some l => ⟨BranchKind.ControlSymbol, 1 + l, 0⟩
      | none =>
      match match_normal_char_with_accents slice with
      | some l => ⟨BranchKind.NormalWithAccents, l, 0⟩
      | none => ⟨BranchKind.Unknown, 1, 0⟩

/-- Modelled from the spec: the strict-mode policy's verdict for a reported
condition (ignore silently, warn, or escalate to a fatal error). -/
inductive StrictReturn where
  | ignore
  | warn
  | error
  deriving DecidableEq, Repr

/-- Modelled from the spec: the render `Settings`, reduced to the
strict-mode policy, a function from error code to verdict (the remaining
fields play no role in the claims). -/
structure Settings where
  strict : String → StrictReturn

/-- Modelled from the spec: `Settings::report_nonstrict` routes a non-fatal
condition through the strict-mode policy; an `error` verdict escalates it to
a fatal `StrictModeError`, otherwise lexing proceeds. -/
def Settings.report_nonstrict (s : Settings) (errorCode errorMsg : String) :
    Except ParseError Unit :=
  match s.strict errorCode with
  | StrictReturn.error => Except.error ⟨ParseErrorKind.StrictModeError errorMsg errorCode, none⟩
  | _ => Except.ok ()

/-- The source's warning message for a comment with no terminating newline. -/
def commentAtEndMsg : String :=
  "% comment has no terminating newline; LaTeX would fail because of commenting the end of math mode (e.g. $)"

/-- Embedding of the `Lexer` state: the shared input, the current position
(a character index; `Lexer::position` below exposes the byte offset the Rust
code stores) and the category-code map. -/
structure Lexer where
  input : List Char
  last_index : Nat
  catcodes : Char → Option Nat

/-- Embedding of `Lexer::new`: position 0 and default catcodes
(`%` is the comment character, `~` the active character). -/
def Lexer.mkNew (input : List Char) : Lexer :=
  ⟨input, 0, fun c => if c = '%' then some 14 else if c = '~' then some 13 else none⟩

/-- Embedding of `Lexer::set_catcode`. -/
def Lexer.set_catcode (lx : Lexer) (ch : Char) (code : Nat) : Lexer :=
  { lx with catcodes := fun c => if c = ch then some code else lx.catcodes c }

/-- Embedding of `Lexer::get_catcode`. -/
def Lexer.get_catcode (lx : Lexer) (ch : Char) : Option Nat := lx.catcodes ch

/-- Embedding of `Lexer::position`: the byte offset of the current position
(the value the Rust field `last_index` holds). -/
def Lexer.position (lx : Lexer) : Nat := utf8Len (lx.input.take lx.last_index)

/-- Embedding of `Lexer::lex`: produce the next token and the advanced
lexer. Comments (a one-byte token whose character has catcode 14) consume
through the end of line — the source sets the position to its already
advanced index plus the newline's offset within the pre-match slice — and
recurse; without a terminating newline the position moves to the end of
input, the non-strict condition "commentAtEnd" is reported, and on a
non-fatal verdict the recursion returns the EOF token. -/
def Lexer.lex (settings : Settings) (lx : Lexer) : Except ParseError (Token × Lexer) :=
  if _hEof : lx.input.length ≤ lx.last_index then
    Except.ok
      (⟨TokenText.Static "EOF", some ⟨lx.input, lx.last_index, lx.last_index⟩, none, none⟩, lx)
  else
    let slice := lx.input.drop lx.last_index
    let matched := exec slice
    let li := lx.last_index + matched.chars
    let token_text : Option TokenText :=
      match matched.branch with
      | BranchKind.Unknown => none
      | BranchKind.ControlWordWhitespace =>
          some (TokenText.Slice lx.input (li - matched.chars) (li - matched.skip))
      | BranchKind.ControlSymbol | BranchKind.NormalWithAccents
      | BranchKind.Verb | BranchKind.VerbStar =>
          some (TokenText.Slice lx.input (li - matched.chars) li)
      | BranchKind.ControlSpace => some (TokenText.Static "\\ ")
      | BranchKind.Space => some (TokenText.Static " ")
    match token_text with
    | none =>
        Except.error
          ⟨ParseErrorKind.UnexpectedCharacter (String.mk (slice.take matched.chars)),
            some (li - matched.chars, li)⟩
    | some token_text =>
        let firstCat : Bool :=
          match token_text.as_str.toList.head? with
          | some fc => decide (lx.catcodes fc = some 14)
          | none => false
        if token_text.byteLen = 1 ∧ firstCat then
          match slice.findIdx? (fun c => c = '\n') with
          | some k =>
              Lexer.lex settings { lx with last_index := li + k }
          | none =>
              match settings.report_nonstrict "commentAtEnd" commentAtEndMsg with
              | Except.error e => Except.error e
              | Except.ok _ => Lexer.lex settings { lx with last_index := lx.input.length }
        else
          Except.ok
            (⟨token_text, some ⟨lx.input, li - matched.chars, li⟩, none, none⟩,
              { lx with last_index := li })
termination_by lx.input.length - lx.last_index
decreasing_by
· have hcons : ∃ b rest, lx.input.drop lx.last_index = b :: rest := by
    cases h : lx.input.drop lx.last_index with
    | nil =>
        exfalso
        have hlen := congrArg List.length h
        simp at hlen
        omega
    | cons b rest => exact ⟨b, rest, rfl⟩
  obtain ⟨b, rest, hbr⟩ := hcons
  have hpos : 1 ≤ (exec (lx.input.drop lx.last_index)).chars := by
    rw [hbr]
    unfold exec
    repeat' split
    all_goals try simp_all [match_space, match_normal_char_with_accents,
      Option.ite_none_right_eq_some]
    all_goals omega
  omega
· omega

/-- Modelled from the spec: the `\verb` function handler (it lives outside
the provided sources; only its error kind and tests are visible). When the
lexer could not match a verbatim run — so the parser receives a bare
`\verb` control-word token instead of a token carrying the delimited body —
the handler fails with `VerbMissingDelimiter`: "fails if no matching
delimiter before a newline or EOF". -/
def verb_handler (text : String) : Except ParseError Unit :=
  if text = "\\verb" then Except.error ⟨ParseErrorKind.VerbMissingDelimiter, none⟩
  else Except.ok ()

/-! ### Math class functions (`functions/mclass.rs`)

The supporting types (`symbols::Atom`, `build_html::DomType`, the MathML
tree) live outside the provided sources and are modelled from the spec; the
`binrel_class` and `mathml_builder` logic is translated from
`functions/mclass.rs`. The builders' recursive child-building step
(`build_expression`) is factored out: the embedded builder takes the
already-built children `inner` as a parameter, exactly as the source's code
after its `build_expression` call. -/

/-- Modelled from the spec: the atom families of `symbols::Atom`. -/
inductive Atom where
  | Bin
  | Close
  | Inner
  | Open
  | Punct
  | Rel
  deriving DecidableEq, Repr

/-- Modelled from the spec: `build_html::DomType`, the spacing classes. -/
inductive DomType where
  | Mord
  | Mop
  | Mbin
  | Mrel
  | Mopen
  | Mclose
  | Mpunct
  | Minner
  deriving DecidableEq, Repr

/-- Fragment of `AnyParseNode` sufficient for `binrel_class`: an atom node
carrying its family, an ord-group carrying its body, and any other node. -/
inductive AnyParseNode where
  | Atom (family : Atom)
  | OrdGroup (body : List AnyParseNode)
  | Other

/-- Embedding of `binrel_class` (`functions/mclass.rs`): the spacing class
is taken from the first element when the argument is a non-empty ord-group,
else from the argument itself; a bin-family atom yields `Mbin`, a rel-family
atom yields `Mrel`, anything else yields `Mord`. -/
def binrel_class (arg : AnyParseNode) : DomType :=
  let atom := match arg with
    | AnyParseNode.OrdGroup (first :: _) => first
    | _ => arg
  match atom with
  | AnyParseNode.Atom family =>
      match family with
      | Atom.Bin => DomType.Mbin
      | Atom.Rel => DomType.Mrel
      | _ => DomType.Mord
  | _ => DomType.Mord

/-- Modelled from the spec: the MathML node types produced by the mclass
builder. -/
inductive MathNodeType where
  | Mpadded
  | Mi
  | Mo
  deriving DecidableEq, Repr

/-- Modelled from the spec: `MathDomNode` — a MathML element node
(`MathNode`: type, children, attributes; `MathNode::builder()` builds one
with empty attributes) or a non-element node. -/
inductive MathDomNode where
  | Math (node_type : MathNodeType) (children : List MathDomNode)
      (attributes : List (String × String))
  | Text (content : String)

/-- Embedding of `mathml_builder` (`functions/mclass.rs`) after its
`build_expression` call: `inner` is the list of built children,
`mclass` and `is_character_box` the fields of the mclass parse node. The
early `Minner` branch returns an `Mpadded` node directly; the `Mord` branch
returns an `Mi` node (or the first child for a character box); every other
class builds an `Mo` node (or takes the first child) and then overwrites its
attributes with the spacing attributes of the class's `match` arm when that
arm inserted any. -/
def mclass_mathml_builder (mclass : DomType) (is_character_box : Bool)
    (inner : List MathDomNode) : MathDomNode :=
  if mclass = DomType.Minner then
    MathDomNode.Math MathNodeType.Mpadded inner []
  else if mclass = DomType.Mord then
    if is_character_box then
      match inner with
      | [] => MathDomNode.Math MathNodeType.Mi inner []
      | first :: _ => first
    else
      MathDomNode.Math MathNodeType.Mi inner []
  else
    let node :=
      if is_character_box then
        match inner with
        | [] => MathDomNode.Math MathNodeType.Mo inner []
        | first :: _ => first
      else
        MathDomNode.Math MathNodeType.Mo inner []
    match node with
    | MathDomNode.Math nt ch old_attrs =>
        let attributes : List (String × String) :=
          match mclass with
          | DomType.Mbin => [("lspace", "0.22em"), ("rspace", "0.22em")]
          | DomType.Mopen => [("lspace", "0em"), ("rspace", "0em")]
          | DomType.Mclose => [("lspace", "0em"), ("rspace", "0em")]
          | DomType.Mpunct => [("lspace", "0em"), ("rspace", "0.17em")]
          | DomType.Minner => [("lspace", "0.0556em"), ("width", "+0.1111em")]
          | _ => []
        if attributes ≠ [] then MathDomNode.Math nt ch attributes
        else MathDomNode.Math nt ch old_attrs
    | other => other

/-! ### Theorems -/

/-! Helper lemmas about characters, byte lengths and the lexer matchers. -/

theorem utf8Size_one {c : Char} (h : c.toNat < 128) : c.utf8Size = 1 := by
  have hv : c.val ≤ (0x7F : UInt32) := by
    rw [UInt32.le_def]
    show c.val.toNat ≤ 127
    exact Nat.le_of_lt_succ h
  show (if c.val ≤ 0x7F then 1 else if c.val ≤ 0x7FF then 2
    else if c.val ≤ 0xFFFF then 3 else 4) = 1
  rw [if_pos hv]

theorem utf8Size_pos (c : Char) : 1 ≤ c.utf8Size := by
  show 1 ≤ (if c.val ≤ 0x7F then 1 else if c.val ≤ 0x7FF then 2
    else if c.val ≤ 0xFFFF then 3 else 4)
  split_ifs <;> omega

theorem utf8Len_nil : utf8Len [] = 0 := rfl

theorem utf8Len_cons (c : Char) (l : List Char) :
    utf8Len (c :: l) = c.utf8Size + utf8Len l := by
  simp [utf8Len]

theorem utf8Len_append (a b : List Char) : utf8Len (a ++ b) = utf8Len a + utf8Len b := by
  simp [utf8Len]

theorem utf8Len_ascii (l : List Char) (h : ∀ c ∈ l, c.toNat < 128) :
    utf8Len l = l.length := by
  induction l with
  | nil => rfl
  | cons c cs ih =>
      rw [utf8Len_cons, utf8Size_one (h c (by simp)), ih (fun d hd => h d (by simp [hd]))]
      simp
      omega

theorem utf8Len_pos (l : List Char) (h : l ≠ []) : 1 ≤ utf8Len l := by
  cases l with
  | nil => exact absurd rfl h
  | cons c cs =>
      rw [utf8Len_cons]
      have := utf8Size_pos c
      omega

theorem alpha_or_at_bounds {c : Char} (h : is_ascii_alpha_or_at c = true) :
    64 ≤ c.toNat ∧ c.toNat ≤ 122 := by
  simp only [is_ascii_alpha_or_at, decide_eq_true_eq] at h
  rcases h with h | h | h
  · omega
  · omega
  · subst h; decide

theorem alpha_not_space {c : Char} (h : is_ascii_alpha_or_at c = true) :
    is_ascii_space c = false := by
  simp only [is_ascii_space, decide_eq_false_iff_not]
  rintro (rfl | rfl | rfl | rfl) <;> exact absurd h (by decide)

theorem alpha_not_hspace {c : Char} (h : is_ascii_alpha_or_at c = true) :
    is_hspace c = false := by
  simp only [is_hspace, decide_eq_false_iff_not]
  rintro (rfl | rfl | rfl) <;> exact absurd h (by decide)

theorem alpha_ne_newline {c : Char} (h : is_ascii_alpha_or_at c = true) : c ≠ '\n' := by
  rintro rfl; exact absurd h (by decide)

theorem space_toNat_lt {c : Char} (h : is_ascii_space c = true) : c.toNat < 128 := by
  simp only [is_ascii_space, decide_eq_true_eq] at h
  rcases h with rfl | rfl | rfl | rfl <;> decide

theorem countWhile_all (p : Char → Bool) (xs ys : List Char)
    (h : ∀ c ∈ xs, p c = true) :
    countWhile p (xs ++ ys) = xs.length + countWhile p ys := by
  induction xs with
  | nil => simp [countWhile]
  | cons c cs ih =>
      rw [List.cons_append, countWhile, if_pos (h c (by simp)),
        ih (fun d hd => h d (by simp [hd]))]
      simp
      omega

theorem countWhile_head_false (p : Char → Bool) (ys : List Char)
    (h : ∀ c, ys.head? = some c → p c = false) :
    countWhile p ys = 0 := by
  cases ys with
  | nil => rfl
  | cons c cs =>
      rw [countWhile, if_neg]
      simp [h c rfl]

theorem match_control_word_eq (w ws rest : List Char) (hw : w ≠ [])
    (hwall : ∀ c ∈ w, is_ascii_alpha_or_at c = true)
    (hws : ∀ c ∈ ws, is_ascii_space c = true)
    (hmax1 : ∀ c, (ws ++ rest).head? = some c → is_ascii_alpha_or_at c = false)
    (hmax2 : ∀ c, rest.head? = some c → is_ascii_space c = false) :
    match_control_word_with_space_after_bs (w ++ (ws ++ rest)) =
      some (w.length, ws.length) := by
  have hn : countWhile is_ascii_alpha_or_at (w ++ (ws ++ rest)) = w.length := by
    rw [countWhile_all _ _ _ hwall, countWhile_head_false _ _ hmax1]
    omega
  have hs : countWhile is_ascii_space ((w ++ (ws ++ rest)).drop w.length) = ws.length := by
    rw [List.drop_left, countWhile_all _ _ _ hws, countWhile_head_false _ _ hmax2]
    omega

  simp only [match_control_word_with_space_after_bs, hn, hs]
  rw [if_neg (by simpa using hw)]

theorem control_space_none_of_alpha (w0 : Char) (rest : List Char)
    (h : is_ascii_alpha_or_at w0 = true) :
    match_control_space_after_bs (w0 :: rest) = none := by
  simp only [match_control_space_after_bs]
  rw [if_neg (alpha_ne_newline h), if_neg (by simp [alpha_not_hspace h])]

theorem verbScan_closed (delim : Char) (body tail : List Char)
    (hd : ¬(delim = '\n' ∨ delim = '\r'))
    (hb : ∀ x ∈ body, ¬(x = '\n' ∨ x = '\r') ∧ x ≠ delim) :
    verbScan delim (body ++ delim :: tail) = some (body.length + 1) := by
  induction body with
  | nil =>
      simp only [List.nil_append, verbScan]
      rw [if_neg hd]
      simp
  | cons x body' ih =>
      have hx := hb x (by simp)
      rw [List.cons_append, verbScan, if_neg hx.1, if_neg hx.2,
        ih (fun y hy => hb y (by simp [hy]))]
      simp only [Option.map_some', List.length_cons, Option.some.injEq]
      omega

theorem verbScan_none (delim : Char) (body : List Char)
    (h : delim ∉ body.takeWhile (fun x => !(x = '\n' ∨ x = '\r'))) :
    verbScan delim body = none := by
  induction body with
  | nil => rfl
  | cons c cs ih =>
      by_cases hc : c = '\n' ∨ c = '\r'
      · rw [verbScan, if_pos hc]
      · rw [List.takeWhile_cons, if_pos (by simp [hc])] at h
        simp only [List.mem_cons, not_or] at h
        rw [verbScan, if_neg hc, if_neg (fun he => h.1 he.symm), ih h.2]
        rfl

theorem match_verb_some (star : Bool) (delim : Char) (body tail : List Char)
    (hd : ¬(delim = '\n' ∨ delim = '\r'))
    (hdal : star = false → is_ascii_alphabetic delim = false ∧ delim ≠ '*')
    (hb : ∀ x ∈ body, ¬(x = '\n' ∨ x = '\r') ∧ x ≠ delim) :
    match_verb_after_bs
        ('v' :: 'e' :: 'r' :: 'b' ::
          ((if star then ['*'] else []) ++ delim :: (body ++ delim :: tail))) =
      some ((if star then 5 else 4) + 1 + (body.length + 1), star) := by
  cases star with
  | true =>
      have harg : ((if true then ['*'] else []) ++ delim :: (body ++ delim :: tail) :
          List Char) = '*' :: delim :: (body ++ delim :: tail) := by simp
      rw [harg]
      simp only [match_verb_after_bs, List.head?_cons, List.tail_cons]
      simp [verbScan_closed delim body tail hd hb]
  | false =>
      obtain ⟨hal, hstar⟩ := hdal rfl
      have harg : ((if false then ['*'] else []) ++ delim :: (body ++ delim :: tail) :
          List Char) = delim :: (body ++ delim :: tail) := by simp
      rw [harg]
      have hsd : (some delim = some '*') = False := by simp [hstar]
      simp only [match_verb_after_bs, List.head?_cons, hsd]
      simp [verbScan_closed delim body tail hd hb, hal]

theorem match_verb_none_of_no_delim (delim : Char) (body : List Char)
    (hal : is_ascii_alphabetic delim = false) (hstar : delim ≠ '*')
    (h : delim ∉ body.takeWhile (fun x => !(x = '\n' ∨ x = '\r'))) :
    match_verb_after_bs ('v' :: 'e' :: 'r' :: 'b' :: delim :: body) = none := by
  have hsd : (some delim = some '*') = False := by simp [hstar]
  simp only [match_verb_after_bs, List.head?_cons, hsd]
  simp [verbScan_none delim body h, hal]


theorem digitChar_ne_dot (n : Nat) (h : n < 10) : Nat.digitChar n ≠ '.' := by
  interval_cases n <;> decide

theorem digitChar_ne_dash (n : Nat) (h : n < 10) : Nat.digitChar n ≠ '-' := by
  interval_cases n <;> decide

theorem digitChar_eq_zero_iff (r : Nat) (h : r < 10) : Nat.digitChar r = '0' ↔ r = 0 := by
  interval_cases r <;> decide

theorem trim_concat (xs : List Char) (c : Char) :
    trimTrailingZeros (xs ++ [c]) = if c = '0' then trimTrailingZeros xs else xs ++ [c] := by
  unfold trimTrailingZeros
  rw [List.reverse_append]
  by_cases hc : c = '0'
  · subst hc
    simp [List.dropWhile_cons]
  · simp [List.dropWhile_cons, hc]

theorem trim_append (xs ys : List Char) :
    trimTrailingZeros (xs ++ ys) =
      if trimTrailingZeros ys = [] then trimTrailingZeros xs
      else xs ++ trimTrailingZeros ys := by
  induction ys using List.reverseRecOn with
  | nil => simp [trimTrailingZeros]
  | append_singleton ys c ih =>
      rw [← List.append_assoc, trim_concat, trim_concat]
      by_cases hc : c = '0'
      · simp only [if_pos hc]
        exact ih
      · simp only [if_neg hc]
        rw [if_neg (show ¬(ys ++ [c] = []) from by simp), List.append_assoc]

theorem trim_nil : trimTrailingZeros [] = [] := rfl

theorem pad_trim (d : Nat) : ∀ f : Nat,
    trimTrailingZeros (pad d f) = pad (stripZeros f d).2 (stripZeros f d).1 := by
  induction d with
  | zero => intro f; simp [pad, stripZeros, trim_nil]
  | succ d ih =>
      intro f
      rw [pad, trim_concat]
      have h10 : f % 10 < 10 := Nat.mod_lt _ (by omega)
      by_cases hz : f % 10 = 0
      · rw [if_pos ((digitChar_eq_zero_iff _ h10).mpr hz), ih]
        simp [stripZeros, hz]
      · rw [if_neg (fun hd => hz ((digitChar_eq_zero_iff _ h10).mp hd))]
        simp [stripZeros, hz, pad]

theorem stripZeros_pos (d : Nat) : ∀ f : Nat, f ≠ 0 → f < 10 ^ d →
    1 ≤ (stripZeros f d).2 := by
  induction d with
  | zero => intro f hf hlt; omega
  | succ d ih =>
      intro f hf hlt
      rw [stripZeros]
      by_cases hz : f % 10 = 0
      · rw [if_pos hz]
        have hp : (10 : ℕ) ^ (d + 1) = 10 ^ d * 10 := pow_succ 10 d
        rw [hp] at hlt
        exact ih _ (by omega) (by omega)
      · rw [if_neg hz]; omega

theorem pad_ne_nil (d f : Nat) (hd : 1 ≤ d) : pad d f ≠ [] := by
  cases d with
  | zero => omega
  | succ d => simp [pad]

theorem pad_getLast (d f : Nat) (hd : 1 ≤ d) :
    (pad d f).getLast? = some (Nat.digitChar (f % 10)) := by
  cases d with
  | zero => omega
  | succ d => rw [pad]; exact List.getLast?_concat _

theorem natRepr_ne_nil (n : Nat) : natRepr n ≠ [] := by
  rw [natRepr]
  split <;> simp

theorem natRepr_eq_zero_list (n : Nat) : natRepr n = ['0'] ↔ n = 0 := by
  constructor
  · intro h
    rw [natRepr] at h
    split at h
    · next hlt => exact (digitChar_eq_zero_iff n hlt).mp (by simpa using h)
    · next hge =>
        exfalso
        have hl := congrArg List.length h
        simp at hl
        exact natRepr_ne_nil _ hl
  · intro h
    subst h
    rw [natRepr]
    rfl

theorem natRepr_no_dash (n : Nat) : '-' ∉ natRepr n := by
  rw [natRepr]
  split
  · next hlt =>
      intro hmem
      simp at hmem
      exact digitChar_ne_dash n hlt hmem.symm
  · next hge =>
      intro hmem
      rcases List.mem_append.mp hmem with hm | hm
      · exact natRepr_no_dash (n / 10) hm
      · simp at hm
        exact digitChar_ne_dash _ (Nat.mod_lt _ (by omega)) hm.symm
termination_by n
decreasing_by exact Nat.div_lt_self (by omega) (by omega)

theorem finalize_fixed_core (m : ℤ) :
    finalize_em_chars ((if m < 0 then ['-'] else []) ++
        natRepr (m.natAbs / 10000) ++ '.' :: pad 4 (m.natAbs % 10000)) =
      if m = 0 then ['0', 'e', 'm']
      else
        (if m < 0 then ['-'] else []) ++ natRepr (m.natAbs / 10000) ++
          ((if m.natAbs % 10000 ≠ 0 then
              '.' :: pad (stripZeros (m.natAbs % 10000) 4).2 (stripZeros (m.natAbs % 10000) 4).1
            else []) ++ ['e', 'm']) := by
  by_cases hm : m = 0
  · subst hm
    have h0 : natRepr ((0 : ℤ).natAbs / 10000) = ['0'] := by
      show natRepr 0 = ['0']
      exact (natRepr_eq_zero_list 0).mpr rfl
    rw [h0]
    decide
  · rw [if_neg hm]
    simp only [finalize_em_chars]
    have hdot : '.' ∈ (if m < 0 then ['-'] else []) ++
        natRepr (m.natAbs / 10000) ++ '.' :: pad 4 (m.natAbs % 10000) := by simp
    rw [if_pos hdot]
    have hsplit : (if m < 0 then ['-'] else []) ++
        natRepr (m.natAbs / 10000) ++ '.' :: pad 4 (m.natAbs % 10000) =
        ((if m < 0 then ['-'] else []) ++ (natRepr (m.natAbs / 10000) ++ ['.'])) ++
          pad 4 (m.natAbs % 10000) := by simp
    rw [hsplit, trim_append]
    by_cases hf : m.natAbs % 10000 = 0
    · rw [hf]
      have ht0 : trimTrailingZeros (pad 4 0) = [] := by
        rw [pad_trim]
        rfl
      rw [if_pos ht0]
      have hsplit2 : (if m < 0 then ['-'] else []) ++ (natRepr (m.natAbs / 10000) ++ ['.']) =
          ((if m < 0 then ['-'] else []) ++ natRepr (m.natAbs / 10000)) ++ ['.'] := by simp
      rw [hsplit2, trim_concat, if_neg (by decide : ¬('.' = '0')), List.getLast?_concat,
        if_pos rfl, List.dropLast_concat]
      have hi : m.natAbs / 10000 ≠ 0 := by
        intro h
        apply hm
        have h1 : m.natAbs = 10000 * (m.natAbs / 10000) + m.natAbs % 10000 :=
          (Nat.div_add_mod _ _).symm
        exact Int.natAbs_eq_zero.mp (by omega)
      have hne1 : ¬((if m < 0 then ['-'] else []) ++ natRepr (m.natAbs / 10000) = ['-', '0']) := by
        intro he
        by_cases hneg : m < 0
        · rw [if_pos hneg] at he
          simp only [List.cons_append, List.nil_append, List.cons.injEq] at he
          exact hi ((natRepr_eq_zero_list _).mp he.2)
        · rw [if_neg hneg] at he
          simp only [List.nil_append] at he
          have : '-' ∈ natRepr (m.natAbs / 10000) := by rw [he]; simp
          exact natRepr_no_dash _ this
      have hne2 : ¬((if m < 0 then ['-'] else []) ++ natRepr (m.natAbs / 10000) = []) := by
        intro he
        rcases List.append_eq_nil.mp he with ⟨_, h2⟩
        exact natRepr_ne_nil _ h2
      rw [if_neg hne1, if_neg hne2, if_neg (by simp : ¬(0 ≠ 0))]
      simp
    · have hlt : m.natAbs % 10000 < 10 ^ 4 := by
        have := Nat.mod_lt m.natAbs (show 0 < 10000 by omega)
        omega
      have hd : 1 ≤ (stripZeros (m.natAbs % 10000) 4).2 := stripZeros_pos 4 _ hf hlt
      rw [pad_trim]
      have hpn : pad (stripZeros (m.natAbs % 10000) 4).2 (stripZeros (m.natAbs % 10000) 4).1 ≠
          [] := pad_ne_nil _ _ hd
      have hor : ∀ (a : Char) (b : Option Char), (some a).or b = some a := fun _ _ => rfl
      rw [if_neg hpn, List.getLast?_append, pad_getLast _ _ hd, hor]
      have hnd : ¬(some (Nat.digitChar ((stripZeros (m.natAbs % 10000) 4).1 % 10)) =
          some '.') := by
        intro h
        exact digitChar_ne_dot _ (Nat.mod_lt _ (by omega)) (Option.some.inj h)
      rw [if_neg hnd]
      have hmemdot : '.' ∈ ((if m < 0 then ['-'] else []) ++
          (natRepr (m.natAbs / 10000) ++ ['.'])) ++
            pad (stripZeros (m.natAbs % 10000) 4).2 (stripZeros (m.natAbs % 10000) 4).1 := by
        simp
      have hne1 : ¬(((if m < 0 then ['-'] else []) ++ (natRepr (m.natAbs / 10000) ++ ['.'])) ++
          pad (stripZeros (m.natAbs % 10000) 4).2 (stripZeros (m.natAbs % 10000) 4).1 =
            ['-', '0']) := by
        intro he
        rw [he] at hmemdot
        exact absurd hmemdot (by decide)
      have hne2 : ¬(((if m < 0 then ['-'] else []) ++ (natRepr (m.natAbs / 10000) ++ ['.'])) ++
          pad (stripZeros (m.natAbs % 10000) 4).2 (stripZeros (m.natAbs % 10000) 4).1 = []) := by
        simp
      rw [if_neg hne1, if_neg hne2, if_pos hf]
      simp

theorem make_em_eq_reference (n : ℚ) :
    make_em_chars n = finalize_em_chars (fixedFormat4 n) := by
  simp only [make_em_chars, fixedFormat4]
  rw [finalize_fixed_core]
  split_ifs <;> simp [List.append_assoc]

/-- Claim C2: for every (finite) value, `make_em` returns the decimal
representation of the value rounded to 4 decimal places with trailing zeros
and a then-trailing decimal point trimmed and negative zero normalized to
"0", followed by "em" — that is, it agrees with the reference formatter
`reference_make_em` (four-decimal fixed formatting composed with
`finalize_em`); in particular `make_em 1.23456 = "1.2346em"` and
`make_em 0.00004 = "0em"`. -/
theorem C2_make_em_formatting :
    (∀ n : ℚ, make_em n = reference_make_em n) ∧
    make_em 1.23456 = "1.2346em" ∧ make_em 0.00004 = "0em" := by
  have hmain : ∀ n : ℚ, make_em n = reference_make_em n := fun n =>
    congrArg String.mk (make_em_eq_reference n)
  refine ⟨hmain, ?_, ?_⟩
  · have hr : roundHalfAway ((1.23456 : ℚ) * 10000) = 12346 := by
      unfold roundHalfAway
      rw [if_neg (by norm_num)]
      norm_num [Int.floor_eq_iff]
    have hff : fixedFormat4 (1.23456 : ℚ) = ['1', '.', '2', '3', '4', '6'] := by
      simp only [fixedFormat4, hr]
      rw [natRepr]
      decide
    rw [hmain]
    simp only [reference_make_em]
    rw [hff]
    decide
  · have hr : roundHalfAway ((0.00004 : ℚ) * 10000) = 0 := by
      unfold roundHalfAway
      rw [if_neg (by norm_num)]
      norm_num [Int.floor_eq_iff]
    have hff : fixedFormat4 (0.00004 : ℚ) = ['0', '.', '0', '0', '0', '0'] := by
      simp only [fixedFormat4, hr]
      rw [natRepr]
      decide
    rw [hmain]
    simp only [reference_make_em]
    rw [hff]
    decide

theorem lex_control_word (settings : Settings) (lx : Lexer) (w ws rest : List Char)
    (hidx : lx.input.drop lx.last_index = '\\' :: (w ++ (ws ++ rest)))
    (hw : w ≠ [])
    (hwall : ∀ c ∈ w, is_ascii_alpha_or_at c = true)
    (hws : ∀ c ∈ ws, is_ascii_space c = true)
    (hmax1 : ∀ c, (ws ++ rest).head? = some c → is_ascii_alpha_or_at c = false)
    (hmax2 : ∀ c, rest.head? = some c → is_ascii_space c = false)
    (hverb : match_verb_after_bs (w ++ (ws ++ rest)) = none) :
    Lexer.lex settings lx =
      Except.ok
        (⟨TokenText.Slice lx.input lx.last_index (lx.last_index + (1 + w.length)),
          some ⟨lx.input, lx.last_index, lx.last_index + (1 + (w.length + ws.length))⟩,
          none, none⟩,
          { lx with last_index := lx.last_index + (1 + (w.length + ws.length)) }) ∧
    (TokenText.Slice lx.input lx.last_index (lx.last_index + (1 + w.length))).as_str =
      String.mk ('\\' :: w) ∧
    Lexer.position { lx with last_index := lx.last_index + (1 + (w.length + ws.length)) } =
      Lexer.position lx + (1 + (w.length + ws.length)) := by
  obtain ⟨w0, w', rfl⟩ : ∃ w0 w', w = w0 :: w' := by
    cases w with
    | nil => exact absurd rfl hw
    | cons a b => exact ⟨a, b, rfl⟩
  have hw0 := hwall w0 (by simp)
  have hlen : lx.last_index < lx.input.length := by
    have h := congrArg List.length hidx
    simp at h
    omega
  have htake : ∀ n : Nat, (lx.input.drop lx.last_index).take (1 + n) =
      '\\' :: ((w0 :: w') ++ (ws ++ rest)).take n := by
    intro n
    rw [hidx, show 1 + n = n + 1 from by omega, List.take_succ_cons]
  have hasstr :
      (TokenText.Slice lx.input lx.last_index
          (lx.last_index + (1 + (w0 :: w').length))).as_str =
        String.mk ('\\' :: (w0 :: w')) := by
    simp only [TokenText.as_str]
    rw [show lx.last_index + (1 + (w0 :: w').length) - lx.last_index =
      1 + (w0 :: w').length from by omega]
    rw [htake, List.take_left]
  refine ⟨?_, hasstr, ?_⟩
  · have h2 : match_control_space_after_bs (w0 :: (w' ++ (ws ++ rest))) = none :=
      control_space_none_of_alpha w0 _ hw0
    have h3 : match_verb_after_bs (w0 :: (w' ++ (ws ++ rest))) = none := by
      simpa using hverb
    have h4 : match_control_word_with_space_after_bs (w0 :: (w' ++ (ws ++ rest))) =
        some ((w0 :: w').length, ws.length) := by
      simpa using match_control_word_eq (w0 :: w') ws rest hw hwall hws hmax1 hmax2
    have h1 : is_ascii_space '\\' = false := by decide
    have hexec : exec ('\\' :: ((w0 :: w') ++ (ws ++ rest))) =
        ⟨BranchKind.ControlWordWhitespace, 1 + (w0 :: w').length + ws.length, ws.length⟩ := by
      simp only [exec, List.cons_append, h1, Bool.false_eq_true, if_false,
        eq_self_iff_true, if_true, h2, h3, h4]
    rw [Lexer.lex, dif_neg (by omega), hidx]
    have e1 : lx.last_index + (1 + (w0 :: w').length + ws.length) -
        (1 + (w0 :: w').length + ws.length) = lx.last_index := by omega
    have e2 : lx.last_index + (1 + (w0 :: w').length + ws.length) - ws.length =
        lx.last_index + (1 + (w0 :: w').length) := by omega
    simp only [hexec, e1, e2]
    have hbl : (TokenText.Slice lx.input lx.last_index
        (lx.last_index + (1 + (w0 :: w').length))).byteLen = 1 + utf8Len (w0 :: w') := by
      rw [TokenText.byteLen, hasstr]
      show utf8Len ('\\' :: (w0 :: w')) = 1 + utf8Len (w0 :: w')
      rw [utf8Len_cons]
      rfl
    rw [if_neg (by
      rintro ⟨h1, -⟩
      rw [hbl] at h1
      have := utf8Len_pos (w0 :: w') (by simp)
      omega)]
    have e3 : lx.last_index + (1 + (w0 :: w').length + ws.length) =
        lx.last_index + (1 + ((w0 :: w').length + ws.length)) := by omega
    rw [e3]
  · show utf8Len (lx.input.take (lx.last_index + (1 + ((w0 :: w').length + ws.length)))) =
      utf8Len (lx.input.take lx.last_index) + (1 + ((w0 :: w').length + ws.length))
    rw [List.take_add, utf8Len_append]
    have hdr : (lx.input.drop lx.last_index).take (1 + ((w0 :: w').length + ws.length)) =
        '\\' :: ((w0 :: w') ++ ws) := by
      rw [htake]
      rw [show (w0 :: w') ++ (ws ++ rest) = ((w0 :: w') ++ ws) ++ rest from by simp,
        show ((w0 :: w')).length + ws.length = ((w0 :: w') ++ ws).length from by
          simp
          omega,
        List.take_left]
    rw [hdr, utf8Len_cons, utf8Len_append]
    have hwlen : utf8Len (w0 :: w') = (w0 :: w').length :=
      utf8Len_ascii _ (fun c hc => by
        have := alpha_or_at_bounds (hwall c hc)
        omega)
    have hwslen : utf8Len ws = ws.length :=
      utf8Len_ascii _ (fun c hc => space_toNat_lt (hws c hc))
    have hbs1 : ('\\' : Char).utf8Size = 1 := rfl
    rw [hwlen, hwslen, hbs1]

theorem lex_verb (settings : Settings) (lx : Lexer) (star : Bool) (delim : Char)
    (body tail : List Char)
    (hidx : lx.input.drop lx.last_index =
      '\\' :: 'v' :: 'e' :: 'r' :: 'b' ::
        ((if star then ['*'] else []) ++ delim :: (body ++ delim :: tail)))
    (hd : ¬(delim = '\n' ∨ delim = '\r'))
    (hdal : star = false → is_ascii_alphabetic delim = false ∧ delim ≠ '*')
    (hb : ∀ x ∈ body, ¬(x = '\n' ∨ x = '\r') ∧ x ≠ delim) :
    Lexer.lex settings lx =
      Except.ok
        (⟨TokenText.Slice lx.input lx.last_index
            (lx.last_index + (1 + ((if star then 5 else 4) + 1 + (body.length + 1)))),
          some ⟨lx.input, lx.last_index,
            lx.last_index + (1 + ((if star then 5 else 4) + 1 + (body.length + 1)))⟩,
          none, none⟩,
          { lx with last_index :=
              lx.last_index + (1 + ((if star then 5 else 4) + 1 + (body.length + 1))) }) ∧
    (TokenText.Slice lx.input lx.last_index
        (lx.last_index + (1 + ((if star then 5 else 4) + 1 + (body.length + 1))))).as_str =
      String.mk ('\\' :: 'v' :: 'e' :: 'r' :: 'b' ::
        ((if star then ['*'] else []) ++ delim :: (body ++ [delim]))) := by
  have h1 : is_ascii_space '\\' = false := by decide
  have h2 : match_control_space_after_bs
      ('v' :: 'e' :: 'r' :: 'b' ::
        ((if star then ['*'] else []) ++ delim :: (body ++ delim :: tail))) = none :=
    control_space_none_of_alpha 'v' _ (by decide)
  have hverb := match_verb_some star delim body tail hd hdal hb
  have hlen : lx.last_index < lx.input.length := by
    have h := congrArg List.length hidx
    simp at h
    omega
  have hX : ('v' :: 'e' :: 'r' :: 'b' ::
        ((if star then ['*'] else []) ++ delim :: (body ++ delim :: tail))) =
      ('v' :: 'e' :: 'r' :: 'b' ::
        ((if star then ['*'] else []) ++ delim :: (body ++ [delim]))) ++ tail := by
    simp
  have hN : (if star then 5 else 4) + 1 + (body.length + 1) =
      ('v' :: 'e' :: 'r' :: 'b' ::
        ((if star then ['*'] else []) ++ delim :: (body ++ [delim]))).length := by
    cases star <;> simp <;> omega
  have hexec : exec ('\\' :: 'v' :: 'e' :: 'r' :: 'b' ::
        ((if star then ['*'] else []) ++ delim :: (body ++ delim :: tail))) =
      ⟨if star then BranchKind.VerbStar else BranchKind.Verb,
        1 + ((if star then 5 else 4) + 1 + (body.length + 1)), 0⟩ := by
    simp only [exec, h1, Bool.false_eq_true, if_false, eq_self_iff_true, if_true, h2, hverb]
  have hasstr : (TokenText.Slice lx.input lx.last_index
        (lx.last_index + (1 + ((if star then 5 else 4) + 1 + (body.length + 1))))).as_str =
      String.mk ('\\' :: 'v' :: 'e' :: 'r' :: 'b' ::
        ((if star then ['*'] else []) ++ delim :: (body ++ [delim]))) := by
    simp only [TokenText.as_str]
    rw [show lx.last_index + (1 + ((if star then 5 else 4) + 1 + (body.length + 1))) -
        lx.last_index = 1 + ((if star then 5 else 4) + 1 + (body.length + 1)) from by omega,
      hidx, show 1 + ((if star then 5 else 4) + 1 + (body.length + 1)) =
        ((if star then 5 else 4) + 1 + (body.length + 1)) + 1 from by omega,
      List.take_succ_cons, hX, hN, List.take_left]
  have hbln : ¬((TokenText.Slice lx.input lx.last_index
        (lx.last_index + (1 + ((if star then 5 else 4) + 1 + (body.length + 1))))).byteLen = 1 ∧
      (match (TokenText.Slice lx.input lx.last_index
          (lx.last_index +
            (1 + ((if star then 5 else 4) + 1 + (body.length + 1))))).as_str.toList.head? with
        | some fc => decide (lx.catcodes fc = some 14)
        | none => false) = true) := by
    rintro ⟨hb1, -⟩
    rw [TokenText.byteLen, hasstr] at hb1
    have : utf8Len ('\\' :: 'v' :: 'e' :: 'r' :: 'b' ::
        ((if star then ['*'] else []) ++ delim :: (body ++ [delim]))) = 1 := hb1
    rw [utf8Len_cons, utf8Len_cons] at this
    have hp1 := utf8Size_pos '\\'
    have hp2 := utf8Size_pos 'v'
    have hp3 := utf8Len_pos ('e' :: 'r' :: 'b' ::
        ((if star then ['*'] else []) ++ delim :: (body ++ [delim]))) (by simp)
    omega
  refine ⟨?_, hasstr⟩
  rw [Lexer.lex, dif_neg (by omega), hidx]
  simp only [hexec, Nat.add_sub_cancel]
  cases star <;>
    simp only [Bool.false_eq_true, if_false, if_true] <;>
    rw [if_neg (by simpa using hbln)]

/-- Claim C3 (amended): at a position where the next characters are a
backslash, a non-empty maximal run `w` of ASCII letters or `@`, and a
(possibly empty) maximal run `ws` of ASCII whitespace — provided the
characters after the backslash do not form a `\verb`/`\verb*` construct with
a matching same-line delimiter (`match_verb_after_bs` fails) — `lex` returns
a control-word token whose text is exactly the backslash plus the letter
run, excluding the trailing whitespace, and `position()` afterwards equals
the byte offset exactly past that whitespace run. -/
theorem C3_control_word_token (settings : Settings) (lx : Lexer) (w ws rest : List Char)
    (hidx : lx.input.drop lx.last_index = '\\' :: (w ++ (ws ++ rest)))
    (hw : w ≠ [])
    (hwall : ∀ c ∈ w, is_ascii_alpha_or_at c = true)
    (hws : ∀ c ∈ ws, is_ascii_space c = true)
    (hmax1 : ∀ c, (ws ++ rest).head? = some c → is_ascii_alpha_or_at c = false)
    (hmax2 : ∀ c, rest.head? = some c → is_ascii_space c = false)
    (hverb : match_verb_after_bs (w ++ (ws ++ rest)) = none) :
    Lexer.lex settings lx =
      Except.ok
        (⟨TokenText.Slice lx.input lx.last_index (lx.last_index + (1 + w.length)),
          some ⟨lx.input, lx.last_index, lx.last_index + (1 + (w.length + ws.length))⟩,
          none, none⟩,
          { lx with last_index := lx.last_index + (1 + (w.length + ws.length)) }) ∧
    (TokenText.Slice lx.input lx.last_index (lx.last_index + (1 + w.length))).as_str =
      String.mk ('\\' :: w) ∧
    Lexer.position { lx with last_index := lx.last_index + (1 + (w.length + ws.length)) } =
      Lexer.position lx + (1 + (w.length + ws.length)) :=
  lex_control_word settings lx w ws rest hidx hw hwall hws hmax1 hmax2 hverb

/-- Claim C5: when `lex` matches a single-character token whose character
has catcode 14, it consumes to past the end of the current line and
recursively returns the next token; with no newline before the end of
input it consumes to the end of input, reports the non-strict condition
"commentAtEnd" through the strict-mode policy, and then (on a non-fatal
verdict) produces the next token, which is EOF. -/
theorem C5_comment_consumes_line (settings : Settings) (lx : Lexer) (c : Char)
    (tail : List Char)
    (hidx : lx.input.drop lx.last_index = c :: tail)
    (hcat : lx.catcodes c = some 14)
    (hrange : (0x21 ≤ c.toNat ∧ c.toNat ≤ 0x5B) ∨ (0x5D ≤ c.toNat ∧ c.toNat ≤ 0x7E))
    (hcomb : ∀ d, tail.head? = some d → is_combining_mark d = false) :
    (∀ k, (c :: tail).findIdx? (fun x => x = '\n') = some k →
        Lexer.lex settings lx =
          Lexer.lex settings { lx with last_index := lx.last_index + 1 + k })
  ∧ ((c :: tail).findIdx? (fun x => x = '\n') = none →
        Lexer.lex settings lx =
          (settings.report_nonstrict "commentAtEnd" commentAtEndMsg).bind
            (fun _ => Lexer.lex settings { lx with last_index := lx.input.length }))
  ∧ Lexer.lex settings { lx with last_index := lx.input.length } =
      Except.ok
        (⟨TokenText.Static "EOF", some ⟨lx.input, lx.input.length, lx.input.length⟩,
          none, none⟩, { lx with last_index := lx.input.length }) := by
  have hlt : c.toNat < 128 := by omega
  have hlen : lx.last_index < lx.input.length := by
    have h := congrArg List.length hidx
    simp at h
    omega
  have hsp : is_ascii_space c = false := by
    simp only [is_ascii_space, decide_eq_false_iff_not]
    rintro (rfl | rfl | rfl | rfl) <;> exact absurd hrange (by decide)
  have hbs : (c = '\\') = False := by
    simp only [eq_iff_iff, iff_false]
    rintro rfl
    exact absurd hrange (by decide)
  have htw : tail.takeWhile is_combining_mark = [] := by
    cases tail with
    | nil => rfl
    | cons d ds =>
        rw [List.takeWhile_cons, hcomb d rfl]
        rfl
  have hnorm : match_normal_char_with_accents (c :: tail) = some 1 := by
    simp only [match_normal_char_with_accents, htw]
    rw [if_pos (by
      rcases hrange with h | h
      · exact Or.inl (by omega)
      · exact Or.inr (Or.inl (by omega)))]
    simp
  have hexec : exec (c :: tail) = ⟨BranchKind.NormalWithAccents, 1, 0⟩ := by
    simp only [exec, hsp, Bool.false_eq_true, if_false, hbs, hnorm]
  have hast : (TokenText.Slice lx.input lx.last_index (lx.last_index + 1)).as_str =
      String.mk [c] := by
    simp only [TokenText.as_str]
    rw [show lx.last_index + 1 - lx.last_index = 1 from by omega, hidx]
    rfl
  have hcond : (TokenText.Slice lx.input lx.last_index (lx.last_index + 1)).byteLen = 1 ∧
      (match (TokenText.Slice lx.input lx.last_index (lx.last_index + 1)).as_str.toList.head?
        with
        | some fc => decide (lx.catcodes fc = some 14)
        | none => false) = true := by
    constructor
    · rw [TokenText.byteLen, hast]
      show utf8Len [c] = 1
      rw [utf8Len_cons, utf8Size_one hlt]
      rfl
    · rw [hast]
      show (match ([c] : List Char).head? with
        | some fc => decide (lx.catcodes fc = some 14)
        | none => false) = true
      simp [hcat]
  have heof : Lexer.lex settings { lx with last_index := lx.input.length } =
      Except.ok
        (⟨TokenText.Static "EOF", some ⟨lx.input, lx.input.length, lx.input.length⟩,
          none, none⟩, { lx with last_index := lx.input.length }) := by
    rw [Lexer.lex, dif_pos (le_refl _)]
  refine ⟨?_, ?_, heof⟩
  · intro k hk
    rw [Lexer.lex, dif_neg (by omega), hidx]
    simp only [hexec, Nat.add_sub_cancel]
    rw [if_pos hcond, hk]
  · intro hnone
    rw [Lexer.lex, dif_neg (by omega), hidx]
    simp only [hexec, Nat.add_sub_cancel]
    rw [if_pos hcond, hnone]
    cases hrep : settings.report_nonstrict "commentAtEnd" commentAtEndMsg with
    | error e => simp [Except.bind, hrep]
    | ok a => simp [Except.bind, hrep]

/-- Claim C5 witness: the theorem applied to the comment `%xy<newline>b` at
position 0 (the default catcodes give `%` catcode 14): the lexer consumes
through the newline at index 3 and recurses at position 4; and on the
no-newline input `%xy` it consumes to the end, reports "commentAtEnd"
(ignored by the all-warn policy), and returns the EOF token. -/
theorem C5_comment_consumes_line_witness :
    Lexer.lex ⟨fun _ => StrictReturn.warn⟩ (Lexer.mkNew ['%', 'x', 'y', '\n', 'b']) =
      Lexer.lex ⟨fun _ => StrictReturn.warn⟩
        { Lexer.mkNew ['%', 'x', 'y', '\n', 'b'] with last_index := 0 + 1 + 3 } ∧
    Lexer.lex ⟨fun _ => StrictReturn.warn⟩ (Lexer.mkNew ['%', 'x', 'y']) =
      ((⟨fun _ => StrictReturn.warn⟩ : Settings).report_nonstrict "commentAtEnd"
          commentAtEndMsg).bind
        (fun _ => Lexer.lex ⟨fun _ => StrictReturn.warn⟩
          { Lexer.mkNew ['%', 'x', 'y'] with
              last_index := (Lexer.mkNew ['%', 'x', 'y']).input.length }) :=
  ⟨((C5_comment_consumes_line ⟨fun _ => StrictReturn.warn⟩
      (Lexer.mkNew ['%', 'x', 'y', '\n', 'b']) '%' ['x', 'y', '\n', 'b'] rfl rfl
      (by decide) (fun d hd => by rw [← Option.some.inj hd]; decide)).1 3 (by decide)),
   ((C5_comment_consumes_line ⟨fun _ => StrictReturn.warn⟩
      (Lexer.mkNew ['%', 'x', 'y']) '%' ['x', 'y'] rfl rfl
      (by decide) (fun d hd => by rw [← Option.some.inj hd]; decide)).2.1 (by decide))⟩

/-- Claim C3 counterexample: at position 0 of the input `\verb|a|` the next
characters are a backslash followed by the non-empty letter run `verb` and
an empty whitespace run, yet `lex` returns the verbatim token `\verb|a|`
(consuming through the matching delimiter), not a control-word token
`\verb`. -/
theorem C3_counterexample :
    Lexer.lex ⟨fun _ => StrictReturn.warn⟩
        (Lexer.mkNew ['\\', 'v', 'e', 'r', 'b', '|', 'a', '|']) =
      Except.ok
        (⟨TokenText.Slice ['\\', 'v', 'e', 'r', 'b', '|', 'a', '|'] 0 8,
          some ⟨['\\', 'v', 'e', 'r', 'b', '|', 'a', '|'], 0, 8⟩, none, none⟩,
          { Lexer.mkNew ['\\', 'v', 'e', 'r', 'b', '|', 'a', '|'] with last_index := 8 }) ∧
    (TokenText.Slice ['\\', 'v', 'e', 'r', 'b', '|', 'a', '|'] 0 8).as_str = "\\verb|a|" ∧
    ("\\verb|a|" : String) ≠ "\\verb" := by
  refine ⟨?_, by decide, by decide⟩
  rw [Lexer.lex]
  simp only [Lexer.mkNew]
  rw [dif_neg (by decide)]
  simp [show exec ['\\', 'v', 'e', 'r', 'b', '|', 'a', '|'] = ⟨BranchKind.Verb, 8, 0⟩ from
    by decide, TokenText.byteLen, TokenText.as_str, utf8Len]

/-- Claim C3 witness: the amended theorem applied to the input `\foo  x`
at position 0, with letter run `foo` and whitespace run of two spaces. -/
theorem C3_control_word_token_witness :
    Lexer.lex ⟨fun _ => StrictReturn.warn⟩ (Lexer.mkNew ['\\', 'f', 'o', 'o', ' ', ' ', 'x']) =
      Except.ok
        (⟨TokenText.Slice ['\\', 'f', 'o', 'o', ' ', ' ', 'x'] 0
            (0 + (1 + (['f', 'o', 'o'] : List Char).length)),
          some ⟨['\\', 'f', 'o', 'o', ' ', ' ', 'x'], 0,
            0 + (1 + ((['f', 'o', 'o'] : List Char).length +
              ([' ', ' '] : List Char).length))⟩,
          none, none⟩,
          { Lexer.mkNew ['\\', 'f', 'o', 'o', ' ', ' ', 'x'] with
              last_index := 0 + (1 + ((['f', 'o', 'o'] : List Char).length +
                ([' ', ' '] : List Char).length)) }) ∧
    (TokenText.Slice ['\\', 'f', 'o', 'o', ' ', ' ', 'x'] 0
        (0 + (1 + (['f', 'o', 'o'] : List Char).length))).as_str =
      String.mk ('\\' :: ['f', 'o', 'o']) ∧
    Lexer.position
        { Lexer.mkNew ['\\', 'f', 'o', 'o', ' ', ' ', 'x'] with
            last_index := 0 + (1 + ((['f', 'o', 'o'] : List Char).length +
              ([' ', ' '] : List Char).length)) } =
      Lexer.position (Lexer.mkNew ['\\', 'f', 'o', 'o', ' ', ' ', 'x']) +
        (1 + ((['f', 'o', 'o'] : List Char).length + ([' ', ' '] : List Char).length)) :=
  C3_control_word_token ⟨fun _ => StrictReturn.warn⟩
    (Lexer.mkNew ['\\', 'f', 'o', 'o', ' ', ' ', 'x'])
    ['f', 'o', 'o'] [' ', ' '] ['x']
    rfl (by decide) (by decide) (by decide)
    (fun c hc => by rw [← Option.some.inj hc]; decide)
    (fun c hc => by rw [← Option.some.inj hc]; decide)
    (by decide)

/-- Claim C4: when the lexer encounters `\verb` (or `\verb*`) followed by a
delimiter, a body free of the delimiter and of line breaks, and the matching
delimiter on the same line, it produces a single verbatim token spanning up
to and including that matching delimiter; if the character run after
`\verb`/`\verb*` contains no matching delimiter before a newline, a carriage
return or the end of input, the verb matcher rejects (so the lexer falls
back to the control word `\verb`, whose handler raises the
VerbMissingDelimiter error). -/
theorem C4_verb_verbatim_or_missing_delimiter (settings : Settings) (lx : Lexer) :
    (∀ (star : Bool) (delim : Char) (body tail : List Char),
        lx.input.drop lx.last_index =
          '\\' :: 'v' :: 'e' :: 'r' :: 'b' ::
            ((if star then ['*'] else []) ++ delim :: (body ++ delim :: tail)) →
        ¬(delim = '\n' ∨ delim = '\r') →
        (star = false → is_ascii_alphabetic delim = false ∧ delim ≠ '*') →
        (∀ x ∈ body, ¬(x = '\n' ∨ x = '\r') ∧ x ≠ delim) →
        Lexer.lex settings lx =
          Except.ok
            (⟨TokenText.Slice lx.input lx.last_index
                (lx.last_index + (1 + ((if star then 5 else 4) + 1 + (body.length + 1)))),
              some ⟨lx.input, lx.last_index,
                lx.last_index + (1 + ((if star then 5 else 4) + 1 + (body.length + 1)))⟩,
              none, none⟩,
              { lx with last_index :=
                  lx.last_index + (1 + ((if star then 5 else 4) + 1 + (body.length + 1))) }) ∧
        (TokenText.Slice lx.input lx.last_index
            (lx.last_index + (1 + ((if star then 5 else 4) + 1 + (body.length + 1))))).as_str =
          String.mk ('\\' :: 'v' :: 'e' :: 'r' :: 'b' ::
            ((if star then ['*'] else []) ++ delim :: (body ++ [delim]))))
  ∧ (∀ (delim : Char) (body : List Char),
        is_ascii_alphabetic delim = false → delim ≠ '*' →
        delim ∉ body.takeWhile (fun x => !(x = '\n' ∨ x = '\r')) →
        match_verb_after_bs ('v' :: 'e' :: 'r' :: 'b' :: delim :: body) = none)
  ∧ (∀ (ws rest : List Char),
        lx.input.drop lx.last_index = '\\' :: (['v', 'e', 'r', 'b'] ++ (ws ++ rest)) →
        (∀ c ∈ ws, is_ascii_space c = true) →
        (∀ c, (ws ++ rest).head? = some c → is_ascii_alpha_or_at c = false) →
        (∀ c, rest.head? = some c → is_ascii_space c = false) →
        match_verb_after_bs (['v', 'e', 'r', 'b'] ++ (ws ++ rest)) = none →
        Lexer.lex settings lx =
          Except.ok
            (⟨TokenText.Slice lx.input lx.last_index (lx.last_index + 5),
              some ⟨lx.input, lx.last_index, lx.last_index + (1 + (4 + ws.length))⟩,
              none, none⟩,
              { lx with last_index := lx.last_index + (1 + (4 + ws.length)) }) ∧
        (TokenText.Slice lx.input lx.last_index (lx.last_index + 5)).as_str = "\\verb" ∧
        verb_handler "\\verb" =
          Except.error ⟨ParseErrorKind.VerbMissingDelimiter, none⟩) := by
  refine ⟨?_, ?_, ?_⟩
  · intro star delim body tail hidx hd hdal hb
    exact lex_verb settings lx star delim body tail hidx hd hdal hb
  · intro delim body hal hstar h
    exact match_verb_none_of_no_delim delim body hal hstar h
  · intro ws rest hidx hws hmax1 hmax2 hverb
    have h := lex_control_word settings lx ['v', 'e', 'r', 'b'] ws rest hidx
      (by decide) (by decide) hws hmax1 hmax2 hverb
    exact ⟨h.1, h.2.1.trans (by decide), by simp [verb_handler]⟩

/-- Claim C4 witness: the theorem applied to the input `\verb|a|` (a closed
verbatim run yielding the token `\verb|a|`), to the unterminated run `|a`
(the matcher rejects), and to the input `\verb|a` (the lexer therefore
returns the control word `\verb` and the handler errors). -/
theorem C4_verb_verbatim_or_missing_delimiter_witness :
    Lexer.lex ⟨fun _ => StrictReturn.warn⟩
        (Lexer.mkNew ['\\', 'v', 'e', 'r', 'b', '|', 'a', '|']) =
      Except.ok
        (⟨TokenText.Slice ['\\', 'v', 'e', 'r', 'b', '|', 'a', '|'] 0
            (0 + (1 + ((if false then 5 else 4) + 1 + (1 + 1)))),
          some ⟨['\\', 'v', 'e', 'r', 'b', '|', 'a', '|'], 0,
            0 + (1 + ((if false then 5 else 4) + 1 + (1 + 1)))⟩, none, none⟩,
          { Lexer.mkNew ['\\', 'v', 'e', 'r', 'b', '|', 'a', '|'] with
              last_index := 0 + (1 + ((if false then 5 else 4) + 1 + (1 + 1))) }) ∧
    match_verb_after_bs ['v', 'e', 'r', 'b', '|', 'a'] = none ∧
    (Lexer.lex ⟨fun _ => StrictReturn.warn⟩ (Lexer.mkNew ['\\', 'v', 'e', 'r', 'b', '|', 'a']) =
      Except.ok
        (⟨TokenText.Slice ['\\', 'v', 'e', 'r', 'b', '|', 'a'] 0 (0 + 5),
          some ⟨['\\', 'v', 'e', 'r', 'b', '|', 'a'], 0, 0 + (1 + (4 + 0))⟩, none, none⟩,
          { Lexer.mkNew ['\\', 'v', 'e', 'r', 'b', '|', 'a'] with
              last_index := 0 + (1 + (4 + 0)) }) ∧
      verb_handler "\\verb" =
        Except.error ⟨ParseErrorKind.VerbMissingDelimiter, none⟩) := by
  refine ⟨?_, ?_, ?_, ?_⟩
  · exact ((C4_verb_verbatim_or_missing_delimiter ⟨fun _ => StrictReturn.warn⟩
      (Lexer.mkNew ['\\', 'v', 'e', 'r', 'b', '|', 'a', '|'])).1 false '|' ['a'] []
      rfl (by decide) (fun _ => by decide) (by decide)).1
  · exact (C4_verb_verbatim_or_missing_delimiter ⟨fun _ => StrictReturn.warn⟩
      (Lexer.mkNew ['\\', 'v', 'e', 'r', 'b', '|', 'a'])).2.1 '|' ['a']
      (by decide) (by decide) (by decide)
  · exact ((C4_verb_verbatim_or_missing_delimiter ⟨fun _ => StrictReturn.warn⟩
      (Lexer.mkNew ['\\', 'v', 'e', 'r', 'b', '|', 'a'])).2.2 [] ['|', 'a']
      rfl (by simp) (fun c hc => by rw [← Option.some.inj hc]; decide)
      (fun c hc => by rw [← Option.some.inj hc]; decide) (by decide)).1
  · exact ((C4_verb_verbatim_or_missing_delimiter ⟨fun _ => StrictReturn.warn⟩
      (Lexer.mkNew ['\\', 'v', 'e', 'r', 'b', '|', 'a'])).2.2 [] ['|', 'a']
      rfl (by simp) (fun c hc => by rw [← Option.some.inj hc]; decide)
      (fun c hc => by rw [← Option.some.inj hc]; decide) (by decide)).2.2

/-- Claim C1 counterexample: the claim omits the clamping of the result at
`options.max_size`. With the default text context, a 100pt measurement under
options whose `max_size` is 2 yields 2 em, whereas
`number * (points-per-unit / points-per-em / size_multiplier)` is 10 em. -/
theorem C1_counterexample :
    calculate_size defaultCtx ⟨100, "pt"⟩ ⟨⟨StyleFamily.text, false⟩, 6, 1, 2⟩ = Except.ok 2 ∧
    (100 : ℚ) * ((1 : ℚ) / 10 / 1) = 10 ∧ (2 : ℚ) ≠ 10 := by
  refine ⟨?_, by norm_num, by norm_num⟩
  simp only [calculate_size, defaultCtx, defaultTextMetrics, PT_PER_UNIT]
  norm_num

/-- Claim C1 (amended): for an absolute unit in the points-per-unit table,
`calculate_size` returns `number * (points-per-unit / points-per-em /
size_multiplier)` ems clamped at `options.max_size`; for `em` (resp. `ex`)
the scale is the quad (resp. x-height) of the metrics of the text-style
`unit_options` even when the current style is tight, with the ratio of the
two size multipliers applied afterwards as compensation when the size
changed; a 10pt measurement at the default 10 points-per-em text size
resolves to 1.0 em, and a 2em measurement in text style resolves to 2.0 em. -/
theorem C1_units_conversion (ctx : KatexContext) (m : Measurement) (options : Options) :
    (∀ pt : ℚ, PT_PER_UNIT m.unit = some pt →
        calculate_size ctx m options =
          Except.ok (min (m.number *
              (pt / (ctx.get_global_metrics options.size).pt_per_em / options.size_multiplier))
            options.max_size))
  ∧ (m.unit = "em" →
        calculate_size ctx m options =
          Except.ok (min (m.number *
              ((ctx.get_global_metrics (unit_options ctx options).size).quad *
                (if (unit_options ctx options).size = options.size then 1
                 else (unit_options ctx options).size_multiplier / options.size_multiplier)))
            options.max_size))
  ∧ (m.unit = "ex" →
        calculate_size ctx m options =
          Except.ok (min (m.number *
              ((ctx.get_global_metrics (unit_options ctx options).size).x_height *
                (if (unit_options ctx options).size = options.size then 1
                 else (unit_options ctx options).size_multiplier / options.size_multiplier)))
            options.max_size))
  ∧ calculate_size defaultCtx ⟨10, "pt"⟩ defaultOptions = Except.ok 1
  ∧ calculate_size defaultCtx ⟨2, "em"⟩ defaultOptions = Except.ok 2 := by
  refine ⟨?_, ?_, ?_, ?_, ?_⟩
  · intro pt hpt
    simp [calculate_size, hpt]
  · intro hem
    have hnone : PT_PER_UNIT "em" = none := by decide
    by_cases hsz : (unit_options ctx options).size = options.size <;>
      simp [calculate_size, hem, hnone, hsz]
  · intro hex
    have hnone : PT_PER_UNIT "ex" = none := by decide
    by_cases hsz : (unit_options ctx options).size = options.size <;>
      simp [calculate_size, hex, hnone, hsz]
  · norm_num [calculate_size, defaultCtx, defaultOptions, defaultTextMetrics, PT_PER_UNIT]
  · have hnone : PT_PER_UNIT "em" = none := by decide
    simp [calculate_size, unit_options, defaultCtx, defaultOptions, defaultTextMetrics,
      hnone, Style.is_tight]
    norm_num

/-- Claim C1 witness: the amended theorem applied at concrete inputs (a 3cm
measurement and a 5ex measurement under the default context and options). -/
theorem C1_units_conversion_witness :
    calculate_size defaultCtx ⟨3, "cm"⟩ defaultOptions =
      Except.ok (min ((3 : ℚ) *
          ((7227 / 254) / (defaultCtx.get_global_metrics defaultOptions.size).pt_per_em /
            defaultOptions.size_multiplier))
        defaultOptions.max_size) ∧
    calculate_size defaultCtx ⟨5, "ex"⟩ defaultOptions =
      Except.ok (min ((5 : ℚ) *
          ((defaultCtx.get_global_metrics (unit_options defaultCtx defaultOptions).size).x_height *
            (if (unit_options defaultCtx defaultOptions).size = defaultOptions.size then 1
             else (unit_options defaultCtx defaultOptions).size_multiplier /
               defaultOptions.size_multiplier)))
        defaultOptions.max_size) :=
  ⟨(C1_units_conversion defaultCtx ⟨3, "cm"⟩ defaultOptions).1 (7227 / 254)
      (by simp [PT_PER_UNIT]),
   (C1_units_conversion defaultCtx ⟨5, "ex"⟩ defaultOptions).2.2.1 rfl⟩

/-- Claim C7: `calculate_size` returns a fatal `InvalidUnit` error exactly
when `valid_unit_str` rejects the unit, and `Ok` for every valid unit. -/
theorem C7_invalid_unit_error (ctx : KatexContext) (m : Measurement) (options : Options) :
    (valid_unit_str m.unit = true → ∃ v, calculate_size ctx m options = Except.ok v)
  ∧ (valid_unit_str m.unit = false →
      calculate_size ctx m options =
        Except.error ⟨ParseErrorKind.InvalidUnit m.unit, none⟩) := by
  constructor
  · intro hv
    rcases hpt : PT_PER_UNIT m.unit with _ | pt
    · simp [valid_unit_str, RELATIVE_UNITS, hpt] at hv
      rcases hv with hv | hv | hv
      · by_cases hsz : (unit_options ctx options).size = options.size <;>
          simp [calculate_size, hv, (by decide : PT_PER_UNIT "ex" = none), hsz]
      · by_cases hsz : (unit_options ctx options).size = options.size <;>
          simp [calculate_size, hv, (by decide : PT_PER_UNIT "em" = none), hsz]
      · simp [calculate_size, hv, (by decide : PT_PER_UNIT "mu" = none)]
    · simp [calculate_size, hpt]
  · intro hv
    simp [valid_unit_str, RELATIVE_UNITS] at hv
    obtain ⟨hpt, hex, hem, hmu⟩ := hv
    simp [calculate_size, hpt, hex, hem, hmu]

/-- Claim C7 witness: the theorem applied to the valid unit `mu` and to the
invalid unit `bogus` under the default context and options. -/
theorem C7_invalid_unit_error_witness :
    (∃ v, calculate_size defaultCtx ⟨1, "mu"⟩ defaultOptions = Except.ok v) ∧
    calculate_size defaultCtx ⟨1, "bogus"⟩ defaultOptions =
      Except.error ⟨ParseErrorKind.InvalidUnit "bogus", none⟩ :=
  ⟨(C7_invalid_unit_error defaultCtx ⟨1, "mu"⟩ defaultOptions).1 (by decide),
   (C7_invalid_unit_error defaultCtx ⟨1, "bogus"⟩ defaultOptions).2 (by decide)⟩

/-- Claim C10: for every measurement with a valid unit, a successful
`calculate_size` result is clamped and hence never exceeds
`options.max_size`. -/
theorem C10_result_le_max_size (ctx : KatexContext) (m : Measurement) (options : Options)
    (v : ℚ) (_hvalid : valid_unit m = true)
    (h : calculate_size ctx m options = Except.ok v) : v ≤ options.max_size := by
  simp only [calculate_size] at h
  repeat' split at h
  all_goals first
    | (injection h with h; subst h; exact min_le_right _ _)
    | exact (Except.noConfusion h)

/-- Claim C10 witness: the theorem applied to a 10pt measurement under the
default context and options, whose result 1 em is at most the maximum size. -/
theorem C10_result_le_max_size_witness : (1 : ℚ) ≤ defaultOptions.max_size :=
  C10_result_le_max_size defaultCtx ⟨10, "pt"⟩ defaultOptions 1 (by decide)
    (by simp only [calculate_size, defaultCtx, defaultOptions, defaultTextMetrics, PT_PER_UNIT]
        norm_num)

/-- Claim C6 counterexample: `Token::set_text` takes `&mut self` and
overwrites the receiver's text in place (in the state-passing embedding:
the resulting token's text is the new text, no longer the text the token
was created with), so a token's text IS mutated after creation. -/
theorem C6_counterexample :
    (Token.set_text (Token.new (TokenText.Static "a") none) (TokenText.Static "b")).text =
      TokenText.Static "b" ∧
    (Token.new (TokenText.Static "a") none).text = TokenText.Static "a" ∧
    TokenText.Static "b" ≠ TokenText.Static "a" :=
  ⟨rfl, rfl, by decide⟩

/-- Claim C6 (amended): `Token::set_text` mutates the receiver's text in
place — the updated token carries the new text with every other field
unchanged — whereas `Token::range` does produce a new token value: its text
is the given text, its span combines the two tokens' spans, and its flags
are cleared. -/
theorem C6_token_text_mutation (t e : Token) (txt : TokenText) :
    (Token.set_text t txt).text = txt ∧
    (Token.set_text t txt).loc = t.loc ∧
    (Token.set_text t txt).noexpand = t.noexpand ∧
    (Token.set_text t txt).treat_as_relax = t.treat_as_relax ∧
    (∀ t', Token.range t e txt = some t' →
        t'.text = txt ∧ t'.loc = SourceLocation.range t.loc e.loc ∧
        t'.noexpand = none ∧ t'.treat_as_relax = none) := by
  refine ⟨rfl, rfl, rfl, rfl, ?_⟩
  intro t' h
  simp only [Token.range, Option.map_eq_some'] at h
  obtain ⟨loc, hloc, rfl⟩ := h
  exact ⟨rfl, hloc.symm, rfl, rfl⟩

/-- Claim C6 witness: the amended theorem applied to concrete tokens
sharing the input buffer `ab`; their combined range spans the whole
buffer. -/
theorem C6_token_text_mutation_witness :
    (Token.set_text ⟨TokenText.Static "a", some ⟨['a', 'b'], 0, 1⟩, none, none⟩
        (TokenText.Static "ab")).text = TokenText.Static "ab" ∧
    (⟨TokenText.Static "ab", some ⟨['a', 'b'], 0, 2⟩, none, none⟩ : Token).text =
      TokenText.Static "ab" ∧
    (⟨TokenText.Static "ab", some ⟨['a', 'b'], 0, 2⟩, none, none⟩ : Token).loc =
      SourceLocation.range (some ⟨['a', 'b'], 0, 1⟩) (some ⟨['a', 'b'], 1, 2⟩) := by
  have h := C6_token_text_mutation
    ⟨TokenText.Static "a", some ⟨['a', 'b'], 0, 1⟩, none, none⟩
    ⟨TokenText.Static "b", some ⟨['a', 'b'], 1, 2⟩, none, none⟩
    (TokenText.Static "ab")
  have h5 := h.2.2.2.2 ⟨TokenText.Static "ab", some ⟨['a', 'b'], 0, 2⟩, none, none⟩ (by decide)
  exact ⟨h.1, h5.1, h5.2.1⟩

/-- Claim C9: `TokenText` equality holds exactly when the textual contents
(`as_str`) are equal, regardless of representation: the pointer/range fast
paths only short-circuit cases whose contents are equal anyway, and every
remaining path compares the contents. -/
theorem C9_tokentext_eq_iff (a b : TokenText) :
    TokenText.eq a b = true ↔ a.as_str = b.as_str := by
  cases a with
  | Slice s1 a1 b1 =>
      cases b with
      | Slice s2 a2 b2 =>
          simp only [TokenText.eq]
          split_ifs with h
          · obtain ⟨h1, rfl, rfl⟩ := h
            have hs : s1 = s2 := by simpa [arcPtrEq] using h1
            subst hs
            simp
          · exact beq_iff_eq
      | Owned t2 => exact beq_iff_eq
      | Static t2 => exact beq_iff_eq
  | Owned t1 =>
      cases b with
      | Slice s2 a2 b2 => exact beq_iff_eq
      | Owned t2 =>
          simp [TokenText.eq, arcPtrEqStr, TokenText.as_str]
      | Static t2 => exact beq_iff_eq
  | Static t1 =>
      cases b with
      | Slice s2 a2 b2 => exact beq_iff_eq
      | Owned t2 => exact beq_iff_eq
      | Static t2 => exact beq_iff_eq

/-- Claim C8 (code bug): `binrel_class` behaves exactly as claimed (class
of the first element of a non-empty ord-group; bin-family atoms yield mbin,
rel-family atoms mrel, everything else mord), and the MathML builder
attaches the claimed spacing attributes for mbin, mopen, mclose and mpunct
and none for mord or mrel; but for minner the early `Mpadded` return skips
the attribute block entirely — the `DomType::Minner` arm of the attribute
`match` is unreachable — so the minner spacing attributes
(`lspace = 0.0556em`, `width = +0.1111em`) claimed by the spec are never
attached. -/
theorem C8_mclass_spacing (inner : List MathDomNode) :
    (∀ rest, binrel_class (AnyParseNode.OrdGroup (AnyParseNode.Atom Atom.Bin :: rest)) =
        DomType.Mbin) ∧
    (∀ rest, binrel_class (AnyParseNode.OrdGroup (AnyParseNode.Atom Atom.Rel :: rest)) =
        DomType.Mrel) ∧
    (∀ f rest, f ≠ Atom.Bin → f ≠ Atom.Rel →
        binrel_class (AnyParseNode.OrdGroup (AnyParseNode.Atom f :: rest)) = DomType.Mord) ∧
    binrel_class (AnyParseNode.OrdGroup []) = DomType.Mord ∧
    binrel_class AnyParseNode.Other = DomType.Mord ∧
    mclass_mathml_builder DomType.Mbin false inner =
      MathDomNode.Math MathNodeType.Mo inner [("lspace", "0.22em"), ("rspace", "0.22em")] ∧
    mclass_mathml_builder DomType.Mopen false inner =
      MathDomNode.Math MathNodeType.Mo inner [("lspace", "0em"), ("rspace", "0em")] ∧
    mclass_mathml_builder DomType.Mclose false inner =
      MathDomNode.Math MathNodeType.Mo inner [("lspace", "0em"), ("rspace", "0em")] ∧
    mclass_mathml_builder DomType.Mpunct false inner =
      MathDomNode.Math MathNodeType.Mo inner [("lspace", "0em"), ("rspace", "0.17em")] ∧
    mclass_mathml_builder DomType.Mrel false inner =
      MathDomNode.Math MathNodeType.Mo inner [] ∧
    mclass_mathml_builder DomType.Mord false inner =
      MathDomNode.Math MathNodeType.Mi inner [] ∧
    (∀ cb, mclass_mathml_builder DomType.Minner cb inner =
        MathDomNode.Math MathNodeType.Mpadded inner []) ∧
    MathDomNode.Math MathNodeType.Mpadded inner [] ≠
      MathDomNode.Math MathNodeType.Mpadded inner
        [("lspace", "0.0556em"), ("width", "+0.1111em")] := by
  refine ⟨fun rest => rfl, fun rest => rfl, ?_, rfl, rfl, rfl, rfl, rfl, rfl, rfl, rfl,
    fun cb => rfl, by simp⟩
  intro f rest hf1 hf2
  cases f <;> first | rfl | exact absurd rfl hf1 | exact absurd rfl hf2

/-- Claim C8 witness: the theorem applied at the empty children list, with
the default-to-mord conjunct instantiated at a close-family atom and the
minner conjunct at a non-character-box node. -/
theorem C8_mclass_spacing_witness :
    binrel_class (AnyParseNode.OrdGroup [AnyParseNode.Atom Atom.Close]) = DomType.Mord ∧
    mclass_mathml_builder DomType.Minner false [] =
      MathDomNode.Math MathNodeType.Mpadded [] [] := by
  obtain ⟨-, -, h3, -, -, -, -, -, -, -, -, h12, -⟩ := C8_mclass_spacing []
  exact ⟨h3 Atom.Close [] (by decide) (by decide), h12 false⟩

end KatexRs
